import Mathlib

/-!
Verification development for a command-line contact directory
(a single Python file: field validators for names/phones/birthdays,
a record store keyed by name, an upcoming-birthday scan with
weekend-to-Monday shifting, command handlers guarded by an
error-recovery decorator, a dispatch loop, and snapshot persistence).

The embedding below translates that program shallowly:
mutable objects become explicit state passing, raised exceptions become
`Except` values, `datetime.date` becomes a `Date` structure with
proleptic-Gregorian ordinal arithmetic, and the `strptime`
pattern `%d.%m.%Y` becomes an explicit matcher with the same
alternation-and-backtracking semantics as the CPython-generated regex
`(3[01]|[12]\d|0[1-9]|[1-9]| [1-9])\.(1[0-2]|0[1-9]|[1-9])\.(\d\d\d\d)`
anchored on both sides.  The regex is compiled without `re.ASCII`, so the
two `\d` positions (the second character of a `1x`/`2x` day and every
year character) accept any Unicode decimal digit (category Nd), which
`int()` then converts; the explicit character classes are ASCII ranges.
-/

namespace AddrBook

/-! ## Characters and digits -/

/-- Numeric value of an ASCII decimal digit character. -/
def digitVal (c : Char) : Nat := c.toNat - 48

/-- True when `c` is one of the ASCII decimal digits `0`-`9` (codepoints 48-57). -/
def isAsciiDecimal (c : Char) : Bool := decide (48 ≤ c.toNat) && decide (c.toNat ≤ 57)

/-- Per-character model of Python `str.isdigit`.  CPython accepts every
character with Unicode property `Numeric_Type=Digit` or `Decimal`; besides
the ASCII decimal digits this includes non-decimal digit characters such
as the compatibility superscripts.  We model the ASCII digits exactly and
list the superscript digits one, two, three as representatives of the
non-decimal part of the Unicode table (the full table is larger; no
claim below depends on characters outside this set). -/
def pyIsDigit (c : Char) : Bool :=
  isAsciiDecimal c || c == '¹' || c == '²' || c == '³'

/-- Python `str.isdigit`: non-empty and every character a digit. -/
def pyStrIsdigit (s : String) : Bool := !s.data.isEmpty && s.data.all pyIsDigit

/-! ## Dates (model of `datetime.date` as used by the program) -/

/-- Gregorian leap-year rule, as in `datetime`/`calendar.isleap`. -/
def isLeapYear (y : Nat) : Bool := y % 4 == 0 && (y % 100 != 0 || y % 400 == 0)

/-- Length of month `m` in year `y` (CPython `_days_in_month`). -/
def daysInMonth (y m : Nat) : Nat :=
  if m = 2 then (if isLeapYear y then 29 else 28)
  else if m = 4 ∨ m = 6 ∨ m = 9 ∨ m = 11 then 30
  else 31

structure Date where
  year : Nat
  month : Nat
  day : Nat
deriving DecidableEq

/-- Calendar validity (what `datetime.date.__new__` checks, minus the
`MAXYEAR` cap, which is enforced separately where the program can hit it). -/
def Date.valid (d : Date) : Prop :=
  1 ≤ d.year ∧ 1 ≤ d.month ∧ d.month ≤ 12 ∧ 1 ≤ d.day ∧ d.day ≤ daysInMonth d.year d.month

instance (d : Date) : Decidable d.valid := by unfold Date.valid; exact inferInstance

/-- Days strictly before January 1 of year `y` (CPython `_days_before_year`). -/
def daysBeforeYear (y : Nat) : Nat :=
  365 * (y - 1) + (y - 1) / 4 + (y - 1) / 400 - (y - 1) / 100

/-- Days in year `y` strictly before month `m`
(CPython `_DAYS_BEFORE_MONTH` table plus the leap adjustment). -/
def daysBeforeMonth (y m : Nat) : Nat :=
  (match m with
   | 1 => 0 | 2 => 31 | 3 => 59 | 4 => 90 | 5 => 120 | 6 => 151 | 7 => 181
   | 8 => 212 | 9 => 243 | 10 => 273 | 11 => 304 | 12 => 334 | _ => 0)
  + (if 2 < m ∧ isLeapYear y = true then 1 else 0)

/-- Proleptic-Gregorian ordinal (CPython `date.toordinal`; 0001-01-01 ↦ 1). -/
def Date.ord (d : Date) : Nat := daysBeforeYear d.year + daysBeforeMonth d.year d.month + d.day

/-- Python `date.weekday()`: Monday = 0 … Sunday = 6.  0001-01-01 was a Monday,
so this is `(toordinal - 1) % 7`, written without truncated subtraction. -/
def Date.weekday (d : Date) : Nat := (d.ord + 6) % 7

/-- Python `datetime.date` comparison: lexicographic on (year, month, day). -/
def dateLt (a b : Date) : Bool :=
  if a.year = b.year then
    (if a.month = b.month then decide (a.day < b.day) else decide (a.month < b.month))
  else decide (a.year < b.year)

/-- Successor date.  `date + timedelta(days=k)` goes through ordinals in
CPython; for in-range dates that is the `k`-fold successor (proved below as
`nextDay_ord`).  (CPython would raise `OverflowError` past year 9999; the
program only ever adds 1 or 2 days to a date within 7 days of `today`.) -/
def nextDay (d : Date) : Date :=
  if d.day < daysInMonth d.year d.month then ⟨d.year, d.month, d.day + 1⟩
  else if d.month < 12 then ⟨d.year, d.month + 1, 1⟩
  else ⟨d.year + 1, 1, 1⟩

def addDays (d : Date) : Nat → Date
  | 0 => d
  | k + 1 => nextDay (addDays d k)

/-- Zero-pad the decimal numeral of `n` to width `w`. -/
def padZeros (w n : Nat) : String :=
  String.mk (List.replicate (w - (toString n).length) '0') ++ toString n

/-- Python `date.strftime("%d.%m.%Y")` (two-digit day and month, four-digit year;
every date the program formats has a four-digit year). -/
def fmtDate (d : Date) : String :=
  padZeros 2 d.day ++ "." ++ padZeros 2 d.month ++ "." ++ padZeros 4 d.year

/-! ## Python exceptions (the kinds the dispatcher can catch) -/

inductive ErrKind where
  | valueError | keyError | indexError | attributeError
deriving DecidableEq

structure PyErr where
  kind : ErrKind
  msg : String
deriving DecidableEq

instance {ε α : Type} [DecidableEq ε] [DecidableEq α] : DecidableEq (Except ε α) := fun x y =>
  match x, y with
  | .ok a, .ok b =>
    if h : a = b then .isTrue (congrArg Except.ok h)
    else .isFalse (fun hh => h (Except.ok.inj hh))
  | .error a, .error b =>
    if h : a = b then .isTrue (congrArg Except.error h)
    else .isFalse (fun hh => h (Except.error.inj hh))
  | .ok _, .error _ => .isFalse (fun hh => Except.noConfusion hh)
  | .error _, .ok _ => .isFalse (fun hh => Except.noConfusion hh)

/-- Python `date.replace(year=y)`: re-runs the `date` constructor checks
(year range `MINYEAR..MAXYEAR` first, then day against the month length). -/
def dateReplaceYear (d : Date) (y : Nat) : Except PyErr Date :=
  if y < 1 ∨ 9999 < y then
    .error ⟨.valueError, "year " ++ toString y ++ " is out of range"⟩
  else if d.day ≤ daysInMonth y d.month then .ok ⟨y, d.month, d.day⟩
  else .error ⟨.valueError, "day is out of range for month"⟩

/-! ## `strptime(value, "%d.%m.%Y")`

CPython compiles the format to the anchored regex
`(3[01]|[12]\d|0[1-9]|[1-9]| [1-9])\.(1[0-2]|0[1-9]|[1-9])\.(\d\d\d\d)`
and then builds the date, which validates it.  Each alternation is matched
greedily with backtracking: the two-digit branches are tried before the
one-digit branch, and the space-padded day branch last.  The explicit
character classes are ASCII ranges, but the class `\d` — the second
character of the `[12]\d` day branch and all four year characters — is
compiled without `re.ASCII` and matches every Unicode decimal digit (Nd),
and `int()` converts such digits by their decimal value.  The two-digit
month branches together match exactly the ASCII two-digit numerals with
value 1..12, which is how we express them. -/

/-- Regex alternation: try `x`, on failure try `y`. -/
def orTry {α : Type} (x y : Option α) : Option α :=
  match x with
  | some v => some v
  | none => y

/-- Base code points of the Unicode decimal-digit (Nd) ranges modelled
here: ASCII, Arabic-Indic, Extended Arabic-Indic, Devanagari, Bengali,
Thai and Fullwidth digits.  Every Nd range is ten consecutive code points
valued 0..9; the regex class `\d` (compiled without `re.ASCII`) matches
every Nd character and `int()` converts it by that value.  The full Nd
table is larger; the lemmas below use only that the ASCII range is listed
first, that no listed range contains the dot, and that every digit value
is at most 9 — all of which hold of the full table as well, so the
characterization transfers to it verbatim. -/
def ndBases : List Nat := [48, 1632, 1776, 2406, 2534, 3664, 65296]

/-- Membership of `c` in a modelled Nd range: the regex class `\d`. -/
def pyIsDecDigit (c : Char) : Bool :=
  ndBases.any (fun base => decide (base ≤ c.toNat) && decide (c.toNat ≤ base + 9))

/-- Decimal value of an Nd digit (`int()` on one digit character). -/
def decDigitVal (c : Char) : Nat :=
  match ndBases.find? (fun base => decide (base ≤ c.toNat) && decide (c.toNat ≤ base + 9)) with
  | some base => c.toNat - base
  | none => 0

/-- Two-character day fields of `%d`.  The regex alternatives are
`3[01]|[12]\d|0[1-9]|[1-9]| [1-9]`; the one-character `[1-9]` branch is
`day1` below, and the trailing space-padded branch is folded in here (its
leading space is disjoint from every digit, so regex order is preserved).
Only the `\d` of the `[12]\d` branch is Unicode-aware; the explicit
classes are ASCII ranges. -/
def day2 (a b : Char) : Option Nat :=
  if a = '3' ∧ (b = '0' ∨ b = '1') then some (30 + digitVal b)
  else if (a = '1' ∨ a = '2') ∧ pyIsDecDigit b = true then
    some (10 * digitVal a + decDigitVal b)
  else if a = '0' ∧ isAsciiDecimal b = true ∧ b ≠ '0' then some (digitVal b)
  else if a = ' ' ∧ isAsciiDecimal b = true ∧ b ≠ '0' then some (digitVal b)
  else none

/-- Day branch `[1-9]` (also the month branch `[1-9]`). -/
def day1 (a : Char) : Option Nat :=
  if isAsciiDecimal a ∧ 1 ≤ digitVal a then some (digitVal a) else none

/-- Month branches `1[0-2]|0[1-9]`: two-digit numerals valued 1..12. -/
def month2 (a b : Char) : Option Nat :=
  if isAsciiDecimal a ∧ isAsciiDecimal b then
    (if 1 ≤ 10 * digitVal a + digitVal b ∧ 10 * digitVal a + digitVal b ≤ 12 then
      some (10 * digitVal a + digitVal b) else none)
  else none

/-- Year `\d\d\d\d` (four Unicode decimal digits, scripts freely mixed),
which must also exhaust the input: `strptime` rejects any unconverted
trailing data. -/
def year4 : List Char → Option Nat
  | [a, b, c, d] =>
    if pyIsDecDigit a = true ∧ pyIsDecDigit b = true ∧ pyIsDecDigit c = true ∧
        pyIsDecDigit d = true then
      some (1000 * decDigitVal a + 100 * decDigitVal b + 10 * decDigitVal c + decDigitVal d)
    else none
  | _ => none

/-- After day `d` and month `m`: a literal dot, then the year. -/
def parseYear (d m : Nat) : List Char → Option (Nat × Nat × Nat)
  | [] => none
  | c :: cs => if c = '.' then (year4 cs).map (fun y => (d, m, y)) else none

/-- After day `d`: a literal dot, then the month alternation (two-digit
branches first, backtracking to the one-digit branch), then the year.
A list too short for the two-digit shape can only try the one-digit
branch, which then fails on the missing dot-and-year. -/
def parseFrom (d : Nat) : List Char → Option (Nat × Nat × Nat)
  | c :: a :: b :: rest =>
    if c = '.' then
      orTry
        ((month2 a b).bind (fun m => parseYear d m rest))
        ((day1 a).bind (fun m => parseYear d m (b :: rest)))
    else none
  | c :: a :: [] =>
    if c = '.' then (day1 a).bind (fun m => parseYear d m []) else none
  | _ => none

/-- The whole pattern: day alternation (two-digit branches first), dot,
month, dot, four-digit year, end of input.  (An input of length at most
one cannot contain day, two dots and a year, and is rejected.) -/
def parseDMY : List Char → Option (Nat × Nat × Nat)
  | a :: b :: rest =>
    orTry
      ((day2 a b).bind (fun d => parseFrom d rest))
      ((day1 a).bind (fun d => parseFrom d (b :: rest)))
  | _ => none

/-- Model of `datetime.strptime(s, "%d.%m.%Y")` reduced to the resulting date:
pattern match, then the `datetime` constructor checks (year in
`MINYEAR..MAXYEAR`, real calendar day; the pattern already bounds the
month by 12 and the day by 31). -/
def parseBirthday (s : String) : Option Date :=
  match parseDMY s.data with
  | some (d, m, y) =>
    if 1 ≤ y ∧ y ≤ 9999 ∧ 1 ≤ m ∧ m ≤ 12 ∧ 1 ≤ d ∧ d ≤ daysInMonth y m then
      some ⟨y, m, d⟩
    else none
  | none => none

/-! ## Field values -/

structure Phone where
  value : String
deriving DecidableEq

/-- Model of `Phone.__init__`: `if not value.isdigit() or len(value) != 10: raise
ValueError(...)`, else store the string unchanged. -/
def mkPhone (value : String) : Except PyErr Phone :=
  if pyStrIsdigit value ∧ value.length = 10 then .ok ⟨value⟩
  else .error ⟨.valueError, "Phone number must be 10 digits."⟩

structure Birthday where
  value : String
deriving DecidableEq

/-- Model of `Birthday.__init__`: try `strptime(value, "%d.%m.%Y")`; on `ValueError`
raise the format message; else store the original string unchanged. -/
def mkBirthday (value : String) : Except PyErr Birthday :=
  match parseBirthday value with
  | some _ => .ok ⟨value⟩
  | none => .error ⟨.valueError, "Birthday must be in DD.MM.YYYY format."⟩

/-- Bare `strptime` as called inside `get_upcoming_birthdays` (no
`Birthday` wrapper).  The CPython message text there varies with the failure
mode ("time data ... does not match format ...", "unconverted data
remains: ...", "day is out of range for month"); we use one representative
message, since no claim depends on that text, only on the failure. -/
def strptimeDMY (s : String) : Except PyErr Date :=
  match parseBirthday s with
  | some d => .ok d
  | none => .error ⟨.valueError, "time data does not match format %d.%m.%Y"⟩

/-! ## Records and the address book -/

structure Record where
  name : String
  phones : List Phone
  birthday : Option Birthday
deriving DecidableEq

/-- Model of `Record.add_phone`: validate, then append. -/
def Record.add_phone (r : Record) (phone : String) : Except PyErr Record :=
  match mkPhone phone with
  | .ok p => .ok { r with phones := r.phones ++ [p] }
  | .error e => .error e

/-- The scan inside `Record.change_phone`: find the first phone equal to
`old`, build a validated `Phone` from `new` and replace it in place;
reaching the end of the list raises the not-found error. -/
def changeLoop (old new : String) : List Phone → Except PyErr (List Phone)
  | [] => .error ⟨.valueError, "Old phone number not found."⟩
  | q :: rest =>
    if q.value = old then
      match mkPhone new with
      | .ok p2 => .ok (p2 :: rest)
      | .error e => .error e
    else
      match changeLoop old new rest with
      | .ok l => .ok (q :: l)
      | .error e => .error e

def Record.change_phone (r : Record) (oldPhone newPhone : String) : Except PyErr Record :=
  match changeLoop oldPhone newPhone r.phones with
  | .ok l => .ok { r with phones := l }
  | .error e => .error e

/-- Model of `Record.add_birthday`: validate, then overwrite. -/
def Record.add_birthday (r : Record) (birthday : String) : Except PyErr Record :=
  match mkBirthday birthday with
  | .ok b => .ok { r with birthday := some b }
  | .error e => .error e

/-- Model of `Record.__str__`. -/
def Record.render (r : Record) : String :=
  r.name ++ ": "
    ++ (if r.phones.isEmpty then "No phones"
        else String.intercalate ", " (r.phones.map Phone.value))
    ++ ", Birthday: "
    ++ (match r.birthday with | some b => b.value | none => "No birthday")

/-- An `AddressBook` is a `dict` subclass: a name-keyed insertion-ordered map. -/
abbrev Book := List (String × Record)

/-- Python `dict.get`. -/
def bookGet (name : String) : Book → Option Record
  | [] => none
  | (k, r) :: rest => if k = name then some r else bookGet name rest

/-- Assignment `self[key] = record`: replace in place if the key is present
(its position is kept), otherwise append.  This also models the in-place
mutation of a record that is aliased inside the book. -/
def upsert (k : String) (v : Record) (book : Book) : Book :=
  if book.any (fun p => p.1 == k) then
    book.map (fun p => if p.1 = k then (k, v) else p)
  else book ++ [(k, v)]

/-- Model of `AddressBook.add_record`. -/
def addRecord (book : Book) (r : Record) : Book := upsert r.name r book

/-! ## `AddressBook.get_upcoming_birthdays` -/

/-- Lines 59-61: the occurrence of `bday` in the current year, rolled forward one year
when it is strictly before `today`.  Both `replace` calls validate the
resulting date (a Feb 29 birthday raises in a non-leap target year). -/
def rolledOcc (today bday : Date) : Except PyErr Date :=
  match dateReplaceYear bday today.year with
  | .error e => .error e
  | .ok b1 =>
    if dateLt b1 today then dateReplaceYear bday (today.year + 1) else .ok b1

/-- Lines 65-66: a Saturday (weekday 5) or Sunday (weekday 6) occurrence is
moved forward by `7 - weekday` days. -/
def weekendShift (d : Date) : Date :=
  if 5 ≤ d.weekday then addDays d (7 - d.weekday) else d

/-- The loop body of `get_upcoming_birthdays` for one record:
`none` when the record contributes nothing, `some pair` when it is
included, `error` when an exception propagates out of the loop. -/
def processRecord (today : Date) (r : Record) : Except PyErr (Option (String × String)) :=
  match r.birthday with
  | none => .ok none
  | some b =>
    match strptimeDMY b.value with
    | .error e => .error e
    | .ok bday =>
      match rolledOcc today bday with
      | .error e => .error e
      | .ok occ =>
        if (occ.ord : Int) - (today.ord : Int) ≤ 7 then
          .ok (some (r.name, fmtDate (weekendShift occ)))
        else .ok none

def upcomingAux (today : Date) : List Record → Except PyErr (List (String × String))
  | [] => .ok []
  | r :: rs =>
    match processRecord today r with
    | .error e => .error e
    | .ok o =>
      match upcomingAux today rs with
      | .error e => .error e
      | .ok rest => .ok (match o with | some p => p :: rest | none => rest)

/-- Model of `AddressBook.get_upcoming_birthdays`, with `datetime.today()` made an
explicit parameter. -/
def getUpcomingBirthdays (today : Date) (book : Book) : Except PyErr (List (String × String)) :=
  upcomingAux today (book.map Prod.snd)

/-! ## Command handlers (each wrapped by the `input_error` decorator) -/

/-- Tuple-unpacking failure (`name, phone = args` with the wrong count). -/
def unpackErr (expected got : Nat) : PyErr :=
  if got < expected then
    ⟨.valueError, "not enough values to unpack (expected " ++ toString expected
      ++ ", got " ++ toString got ++ ")"⟩
  else
    ⟨.valueError, "too many values to unpack (expected " ++ toString expected ++ ")"⟩

/-- Attribute access on the `None` returned by `dict.get`. -/
def noneAttrErr (attr : String) : PyErr :=
  ⟨.attributeError, "\x27NoneType\x27 object has no attribute \x27" ++ attr ++ "\x27"⟩

/-- Handler `add_contact`: on an existing record, append a validated phone to it;
otherwise build a new record, add the phone, and only then insert it
(so a failing phone leaves the book without the new name). -/
def add_contact (args : List String) (book : Book) : Except PyErr String × Book :=
  match args with
  | [name, phone] =>
    (match bookGet name book with
     | some record =>
       (match record.add_phone phone with
        | .ok r2 => (.ok ("Contact " ++ name ++ " updated."), upsert name r2 book)
        | .error e => (.error e, book))
     | none =>
       (match Record.add_phone ⟨name, [], none⟩ phone with
        | .ok r2 => (.ok ("Contact " ++ name ++ " updated."), addRecord book r2)
        | .error e => (.error e, book)))
  | _ => (.error (unpackErr 2 args.length), book)

def change_contact (args : List String) (book : Book) : Except PyErr String × Book :=
  match args with
  | [name, oldPhone, newPhone] =>
    (match bookGet name book with
     | some record =>
       (match record.change_phone oldPhone newPhone with
        | .ok r2 => (.ok ("Phone number for " ++ name ++ " updated."), upsert name r2 book)
        | .error e => (.error e, book))
     | none => (.error (noneAttrErr "change_phone"), book))
  | _ => (.error (unpackErr 3 args.length), book)

def show_phone (args : List String) (book : Book) : Except PyErr String × Book :=
  match args with
  | [] => (.error ⟨.indexError, "list index out of range"⟩, book)
  | name :: _ =>
    (match bookGet name book with
     | some record =>
       (.ok (name ++ ": " ++ String.intercalate ", " (record.phones.map Phone.value)), book)
     | none => (.error (noneAttrErr "phones"), book))

def show_all (book : Book) : String :=
  String.intercalate "\n" (book.map (fun kv => kv.2.render))

/-- Handler `add_birthday_handler`: note that for an absent name the empty record
is inserted *before* the birthday is validated, so an invalid birthday
still leaves the fresh (phone-less, birthday-less) record in the book. -/
def add_birthday_handler (args : List String) (book : Book) : Except PyErr String × Book :=
  match args with
  | [name, birthday] =>
    (match bookGet name book with
     | some record =>
       (match record.add_birthday birthday with
        | .ok r2 => (.ok ("Birthday added for " ++ name ++ "."), upsert name r2 book)
        | .error e => (.error e, book))
     | none =>
       (match Record.add_birthday ⟨name, [], none⟩ birthday with
        | .ok r2 =>
          (.ok ("Birthday added for " ++ name ++ "."),
           upsert name r2 (addRecord book ⟨name, [], none⟩))
        | .error e => (.error e, addRecord book ⟨name, [], none⟩)))
  | _ => (.error (unpackErr 2 args.length), book)

def show_birthday (args : List String) (book : Book) : Except PyErr String × Book :=
  match args with
  | [] => (.error ⟨.indexError, "list index out of range"⟩, book)
  | name :: _ =>
    (match bookGet name book with
     | some record =>
       (match record.birthday with
        | some b => (.ok (name ++ "\x27s birthday: " ++ b.value), book)
        | none => (.ok ("No birthday set for " ++ name ++ "."), book))
     | none => (.error (noneAttrErr "birthday"), book))

def upcoming_birthdays (today : Date) (book : Book) : Except PyErr String :=
  match getUpcomingBirthdays today book with
  | .ok l =>
    .ok (if l.isEmpty then "No upcoming birthdays."
         else String.intercalate "\n" (l.map (fun p => p.1 ++ ": " ++ p.2)))
  | .error e => .error e

/-- The `input_error` decorator: `KeyError`, `ValueError`, `IndexError` and
`AttributeError` (every kind in `ErrKind`, i.e. every exception the handler
bodies can raise) are turned into `f"Error: {e}"`; `str(e)` is the message
for each of these kinds as raised here. -/
def input_error : Except PyErr String → String
  | .ok s => s
  | .error e => "Error: " ++ e.msg

/-! ## The dispatch loop (`main`), one iteration at a time -/

/-- Tokenization `input(...).strip().split()`: split on whitespace runs, no empties. -/
def wsSplitAux : List Char → List Char → List String
  | [], acc => if acc.isEmpty then [] else [String.mk acc.reverse]
  | c :: rest, acc =>
    if c.isWhitespace then
      (if acc.isEmpty then wsSplitAux rest [] else String.mk acc.reverse :: wsSplitAux rest [])
    else wsSplitAux rest (c :: acc)

def tokenize (line : String) : List String := wsSplitAux line.data []

/-- Python `str.lower` (ASCII case mapping; every command word is ASCII). -/
def charLower (c : Char) : Char :=
  if 65 ≤ c.toNat ∧ c.toNat ≤ 90 then Char.ofNat (c.toNat + 32) else c

def lowerStr (s : String) : String := String.mk (s.data.map charLower)

/-- Keys of the `commands` dict in `main`. -/
def handlerCmds : List String :=
  ["add", "change", "phone", "all", "add-birthday", "show-birthday", "birthdays"]

/-- Dispatch to one of the `commands` handlers (lower-cased command word):
`all` and `birthdays` are called with the book only, the rest with
`(args, book)`. -/
def handleCommand (today : Date) (cmd : String) (args : List String) (book : Book) :
    Except PyErr String × Book :=
  if cmd = "add" then add_contact args book
  else if cmd = "change" then change_contact args book
  else if cmd = "phone" then show_phone args book
  else if cmd = "all" then (.ok (show_all book), book)
  else if cmd = "add-birthday" then add_birthday_handler args book
  else if cmd = "show-birthday" then show_birthday args book
  else if cmd = "birthdays" then (upcoming_birthdays today book, book)
  else (.ok "", book)

/-- The body of the `while True` loop in `main` after tokenization:
the resulting book and the lines printed.  (`close`/`exit` also save the
book — persistence is modelled separately below — and terminate the loop.) -/
def dispatchTokens (today : Date) (book : Book) : List String → Book × List String
  | [] => (book, [])
  | cmd :: args =>
    if lowerStr cmd = "close" ∨ lowerStr cmd = "exit" then (book, ["Goodbye!"])
    else if lowerStr cmd = "hello" then (book, ["How can I help you?"])
    else if lowerStr cmd ∈ handlerCmds then
      ((handleCommand today (lowerStr cmd) args book).2,
       [input_error (handleCommand today (lowerStr cmd) args book).1])
    else (book, ["Unknown command. Try again."])

/-- One iteration of the loop: read a line, tokenize, dispatch. -/
def stepLine (today : Date) (book : Book) (line : String) : Book × List String :=
  dispatchTokens today book (tokenize line)

/-- Books reachable by the dispatch loop from the fresh empty book. -/
inductive Reachable : Book → Prop where
  | base : Reachable []
  | step (today : Date) (line : String) (book : Book) :
      Reachable book → Reachable (stepLine today book line).1

/-! ## Persistence (`save_data` / `load_data`)

Modelled from the spec: the program serializes with `pickle.dump` /
`pickle.load`, whose byte format is CPython-internal and not part of this
repository; the spec says save "serializes the entire Directory (all
Records, including nested Phones/Birthday) to a single named file, fully
overwriting prior contents" and load "deserializes from that file if it
exists; if absent, yields a fresh empty Directory".  We model the
serialized snapshot as a structured value mirroring the pickled object
graph, and the file system as a name-keyed store. -/

inductive PVal where
  | pstr (s : String)
  | pnone
  | plist (items : List PVal)

def encodeRecord (r : Record) : PVal :=
  .plist [.pstr r.name, .plist (r.phones.map (fun p => .pstr p.value)),
          match r.birthday with | some b => .pstr b.value | none => .pnone]

def encodeBook (book : Book) : PVal :=
  .plist (book.map (fun kv => .plist [.pstr kv.1, encodeRecord kv.2]))

def decodePhones : List PVal → Option (List Phone)
  | [] => some []
  | .pstr s :: rest => (decodePhones rest).map (fun ps => ⟨s⟩ :: ps)
  | _ => none

def decodeRecord : PVal → Option Record
  | .plist [.pstr name, .plist phoneVals, bd] =>
    (match decodePhones phoneVals with
     | some phones =>
       (match bd with
        | .pstr s => some ⟨name, phones, some ⟨s⟩⟩
        | .pnone => some ⟨name, phones, none⟩
        | _ => none)
     | none => none)
  | _ => none

def decodeEntries : List PVal → Option Book
  | [] => some []
  | .plist [.pstr k, rv] :: rest =>
    (match decodeRecord rv with
     | some r =>
       (match decodeEntries rest with
        | some tail => some ((k, r) :: tail)
        | none => none)
     | none => none)
  | _ => none

def decodeBook : PVal → Option Book
  | .plist entries => decodeEntries entries
  | _ => none

abbrev FileStore := List (String × PVal)

def fsPut (k : String) (v : PVal) (fs : FileStore) : FileStore :=
  if fs.any (fun p => p.1 == k) then
    fs.map (fun p => if p.1 = k then (k, v) else p)
  else fs ++ [(k, v)]

def fsGet (k : String) : FileStore → Option PVal
  | [] => none
  | (k2, v) :: rest => if k2 = k then some v else fsGet k rest

/-- Model of `save_data`: overwrite the named file with the snapshot. -/
def save_data (book : Book) (filename : String) (fs : FileStore) : FileStore :=
  fsPut filename (encodeBook book) fs

/-- Model of `load_data`: missing file gives a fresh empty book; a file that does
not decode is the fatal startup condition. -/
def load_data (filename : String) (fs : FileStore) : Except String Book :=
  match fsGet filename fs with
  | some v =>
    (match decodeBook v with
     | some book => .ok book
     | none => .error "fatal: could not deserialize address book")
  | none => .ok []

/-! ## Spec-side definitions (written from the claims, for comparison) -/

/-- The wording of claim C2: "exactly 10 decimal digits". -/
def tenDecimalDigits (s : String) : Prop :=
  s.length = 10 ∧ ∀ c ∈ s.data, isAsciiDecimal c = true

instance (s : String) : Decidable (tenDecimalDigits s) := by
  unfold tenDecimalDigits; exact inferInstance

/-- The wording of claim C3: zero-padded two-digit day, zero-padded two-digit
month, four-digit year, and a real calendar date. -/
def strictPaddedBirthday (s : String) : Bool :=
  match s.data with
  | [d1, d2, '.', m1, m2, '.', y1, y2, y3, y4] =>
    isAsciiDecimal d1 && isAsciiDecimal d2 && isAsciiDecimal m1 && isAsciiDecimal m2 &&
    isAsciiDecimal y1 && isAsciiDecimal y2 && isAsciiDecimal y3 && isAsciiDecimal y4 &&
    (decide (1 ≤ 1000 * digitVal y1 + 100 * digitVal y2 + 10 * digitVal y3 + digitVal y4) &&
     decide (1 ≤ 10 * digitVal m1 + digitVal m2) &&
     decide (10 * digitVal m1 + digitVal m2 ≤ 12) &&
     decide (1 ≤ 10 * digitVal d1 + digitVal d2) &&
     decide (10 * digitVal d1 + digitVal d2 ≤ daysInMonth
       (1000 * digitVal y1 + 100 * digitVal y2 + 10 * digitVal y3 + digitVal y4)
       (10 * digitVal m1 + digitVal m2)))
  | _ => false

/-- Value of an ASCII decimal numeral given as a character list. -/
def digitsVal (cs : List Char) : Nat := cs.foldl (fun a c => 10 * a + digitVal c) 0

/-- Value of a Unicode decimal numeral (`int()` on an Nd-digit string). -/
def decDigitsVal (cs : List Char) : Nat := cs.foldl (fun a c => 10 * a + decDigitVal c) 0

/-- A day field accepted by `%d`, valued `d`: either a two-character form
— an ASCII digit followed by a second character that is an ASCII digit,
except that a leading 1 or 2 admits any Unicode decimal digit — or a
space followed by an ASCII digit 1..9, or a single ASCII digit 1..9.
Zero-padding is optional. -/
def dayTokenV (cs : List Char) (d : Nat) : Prop :=
  1 ≤ d ∧
  ((∃ a b, cs = [a, b] ∧ isAsciiDecimal a = true ∧ pyIsDecDigit b = true ∧
      d = 10 * digitVal a + decDigitVal b ∧ d ≤ 31 ∧
      (a = '1' ∨ a = '2' ∨ isAsciiDecimal b = true)) ∨
   (∃ b, cs = [' ', b] ∧ isAsciiDecimal b = true ∧ d = digitVal b ∧ d ≤ 9) ∨
   (∃ a, cs = [a] ∧ isAsciiDecimal a = true ∧ d = digitVal a ∧ d ≤ 9))

/-- A month field accepted by `%m`: a one- or two-digit ASCII numeral
(the `%m` classes are all explicit ASCII ranges); zero-padding optional. -/
def monthTokenV (cs : List Char) (m : Nat) : Prop :=
  digitsVal cs = m ∧ cs.all isAsciiDecimal = true ∧ 1 ≤ m ∧
  ((cs.length = 2 ∧ m ≤ 12) ∨ (cs.length = 1 ∧ m ≤ 9))

/-- A year field accepted by `%Y`: exactly four Unicode decimal digits. -/
def yearTokenV (cs : List Char) (y : Nat) : Prop :=
  decDigitsVal cs = y ∧ cs.all pyIsDecDigit = true ∧ cs.length = 4

instance (cs : List Char) (m : Nat) : Decidable (monthTokenV cs m) := by
  unfold monthTokenV; exact inferInstance

instance (cs : List Char) (y : Nat) : Decidable (yearTokenV cs y) := by
  unfold yearTokenV; exact inferInstance

/-- The amended acceptance condition for `Birthday`: day dot month dot
four-digit year, day and month one- or two-digit, naming a real calendar
date with year at least 1. -/
def specBirthdayAccepted (s : String) : Prop :=
  ∃ d m y A B C, s.data = A ++ '.' :: (B ++ '.' :: C) ∧
    dayTokenV A d ∧ monthTokenV B m ∧ yearTokenV C y ∧
    1 ≤ y ∧ 1 ≤ m ∧ m ≤ 12 ∧ 1 ≤ d ∧ d ≤ daysInMonth y m

/-- "Already passed relative to today", read off the month/day pair as the
spec describes it. -/
def mdPassed (today bday : Date) : Bool :=
  decide (bday.month < today.month) ||
    (bday.month == today.month && decide (bday.day < today.day))

/-- The phone-validity constraint stated by the source (`Phone.__init__`). -/
def validPhoneStr (s : String) : Prop := pyStrIsdigit s = true ∧ s.length = 10

/-- The record-level invariant of claim C5. -/
def RecordOk (r : Record) : Prop :=
  (∀ p ∈ r.phones, validPhoneStr p.value) ∧
  (∀ b, r.birthday = some b → (parseBirthday b.value).isSome = true)

/-- The book-level invariant of claim C5: every stored field validated,
no duplicate name keys. -/
def BookOk (book : Book) : Prop :=
  (∀ kv ∈ book, RecordOk kv.2) ∧ (book.map Prod.fst).Nodup

/-! # Helper lemmas -/

theorem mkPhone_eq_ok {s : String} {p : Phone} (h : mkPhone s = .ok p) :
    p.value = s ∧ validPhoneStr s := by
  unfold mkPhone at h
  split at h
  · exact ⟨by cases h; rfl, by assumption⟩
  · cases h

theorem mkPhone_of_valid {s : String} (h : validPhoneStr s) : mkPhone s = .ok ⟨s⟩ := by
  unfold mkPhone
  exact if_pos h

theorem mkBirthday_eq_ok {s : String} {b : Birthday} (h : mkBirthday s = .ok b) :
    b.value = s ∧ (parseBirthday s).isSome = true := by
  unfold mkBirthday at h
  split at h
  · refine ⟨by cases h; rfl, ?_⟩
    next heq => rw [heq]; rfl
  · cases h

theorem changeLoop_not_found {old new : String} {l : List Phone}
    (h : ∀ p ∈ l, p.value ≠ old) :
    changeLoop old new l = .error ⟨.valueError, "Old phone number not found."⟩ := by
  induction l with
  | nil => rfl
  | cons q rest ih =>
    unfold changeLoop
    rw [if_neg (h q (by simp))]
    rw [ih (fun p hp => h p (by simp [hp]))]

theorem changeLoop_found {old new : String} {pre suf : List Phone} {ph p2 : Phone}
    (hpre : ∀ q ∈ pre, q.value ≠ old) (hph : ph.value = old)
    (hnew : mkPhone new = .ok p2) :
    changeLoop old new (pre ++ ph :: suf) = .ok (pre ++ p2 :: suf) := by
  induction pre with
  | nil =>
    simp only [List.nil_append]
    unfold changeLoop
    rw [if_pos hph, hnew]
  | cons q rest ih =>
    simp only [List.cons_append]
    unfold changeLoop
    rw [if_neg (hpre q (by simp))]
    rw [ih (fun p hp => hpre p (by simp [hp]))]

/-! # C9 -/

/-- C9: when `add` is given a name absent from the book and a phone string
that fails validation, the error is raised before `add_record` runs, so
the book is returned completely unchanged — no empty record appears. -/
theorem add_invalid_phone_no_insert :
    ∀ (book : Book) (name phone : String) (e : PyErr),
      bookGet name book = none → mkPhone phone = .error e →
      add_contact [name, phone] book = (.error e, book) := by
  intro book name phone e h1 h2
  simp only [add_contact, Record.add_phone, h1, h2]

theorem add_invalid_phone_no_insert_witness :
    add_contact ["bob", "123"] [] =
      (.error ⟨.valueError, "Phone number must be 10 digits."⟩, []) :=
  add_invalid_phone_no_insert [] "bob" "123" _ rfl (by decide)

/-! # C4 -/

/-- C4: `change_phone` replaces the first phone equal to `old` with a
validated phone built from `new`, leaves every other phone unchanged, and
fails with the not-found error when no phone matches; concretely, on
phones `["1111111111"]` with args `("1111111111", "2222222222")` it yields
phones `["2222222222"]`. -/
theorem change_phone_rule :
    (∀ (r : Record) (oldPhone newPhone : String),
      (∀ p ∈ r.phones, p.value ≠ oldPhone) →
      Record.change_phone r oldPhone newPhone
        = .error ⟨.valueError, "Old phone number not found."⟩)
    ∧ (∀ (r : Record) (oldPhone newPhone : String) (pre suf : List Phone) (ph p2 : Phone),
      r.phones = pre ++ ph :: suf → ph.value = oldPhone →
      (∀ q ∈ pre, q.value ≠ oldPhone) → mkPhone newPhone = .ok p2 →
      Record.change_phone r oldPhone newPhone = .ok { r with phones := pre ++ p2 :: suf })
    ∧ Record.change_phone ⟨"X", [⟨"1111111111"⟩], none⟩ "1111111111" "2222222222"
        = .ok ⟨"X", [⟨"2222222222"⟩], none⟩ := by
  refine ⟨?_, ?_, by decide⟩
  · intro r oldPhone newPhone h
    unfold Record.change_phone
    rw [changeLoop_not_found h]
  · intro r oldPhone newPhone pre suf ph p2 hsplit hph hpre hnew
    unfold Record.change_phone
    rw [hsplit, changeLoop_found hpre hph hnew]

theorem change_phone_rule_witness :
    Record.change_phone ⟨"Y", [⟨"0000000000"⟩, ⟨"1111111111"⟩], none⟩ "1111111111" "2222222222"
      = .ok ⟨"Y", [⟨"0000000000"⟩, ⟨"2222222222"⟩], none⟩ :=
  change_phone_rule.2.1 ⟨"Y", [⟨"0000000000"⟩, ⟨"1111111111"⟩], none⟩
    "1111111111" "2222222222" [⟨"0000000000"⟩] [] ⟨"1111111111"⟩ ⟨"2222222222"⟩
    rfl rfl (by decide) (by decide)

/-! # C6 -/

theorem fsGet_map_put {k : String} {v : PVal} {fs : FileStore}
    (h : fs.any (fun p => p.1 == k) = true) :
    fsGet k (fs.map (fun p => if p.1 = k then (k, v) else p)) = some v := by
  induction fs with
  | nil => simp at h
  | cons hd tl ih =>
    simp only [List.map_cons]
    by_cases hc : hd.1 = k
    · rw [if_pos hc]
      simp [fsGet]
    · rw [if_neg hc]
      have htl : tl.any (fun p => p.1 == k) = true := by
        simp only [List.any_cons, Bool.or_eq_true, beq_iff_eq] at h
        rcases h with h | h
        · exact absurd h hc
        · exact h
      simp [fsGet, hc, ih htl]

theorem fsGet_append_absent {k : String} {v : PVal} {fs : FileStore}
    (h : fs.any (fun p => p.1 == k) = false) :
    fsGet k (fs ++ [(k, v)]) = some v := by
  induction fs with
  | nil => simp [fsGet]
  | cons hd tl ih =>
    simp only [List.any_cons, Bool.or_eq_false_iff, beq_eq_false_iff_ne] at h
    simp [fsGet, fun hh => h.1 hh, ih h.2]

theorem fsGet_fsPut (k : String) (v : PVal) (fs : FileStore) :
    fsGet k (fsPut k v fs) = some v := by
  unfold fsPut
  split
  · exact fsGet_map_put (by assumption)
  · next h => exact fsGet_append_absent (Bool.eq_false_iff.mpr h)

theorem decodePhones_encode (ps : List Phone) :
    decodePhones (ps.map (fun p => .pstr p.value)) = some ps := by
  induction ps with
  | nil => rfl
  | cons p rest ih => simp [decodePhones, ih]

theorem decodeRecord_encode (r : Record) : decodeRecord (encodeRecord r) = some r := by
  obtain ⟨name, phones, birthday⟩ := r
  cases birthday <;> simp [encodeRecord, decodeRecord, decodePhones_encode]

theorem decodeEntries_encode (book : Book) :
    decodeEntries (book.map (fun kv => .plist [.pstr kv.1, encodeRecord kv.2])) = some book := by
  induction book with
  | nil => rfl
  | cons kv rest ih => simp [decodeEntries, decodeRecord_encode, ih]

/-- C6: saving any book to the persistence file and loading it back yields
a book equal to the original — in particular with identical names, phone
lists and birthday values for every key. -/
theorem save_load_roundtrip :
    ∀ (book : Book) (fs : FileStore) (filename : String),
      load_data filename (save_data book filename fs) = .ok book := by
  intro book fs filename
  simp [load_data, save_data, fsGet_fsPut, encodeBook, decodeBook, decodeEntries_encode]

/-! # C2 -/

/-- C2 (amended): `Phone` construction succeeds (storing the string
unchanged) exactly when the string has length 10 and every character is a
digit in the sense of Python `str.isdigit` — which accepts Unicode digit
characters such as the superscripts beyond the ASCII decimal digits —
and fails with the `InvalidFormat` message otherwise; every string of
exactly 10 ASCII decimal digits is accepted and round-trips. -/
theorem phone_validation_rule :
    (∀ s : String, (∃ p, mkPhone s = .ok p ∧ p.value = s) ↔ validPhoneStr s)
    ∧ (∀ s : String, ¬ validPhoneStr s →
        mkPhone s = .error ⟨.valueError, "Phone number must be 10 digits."⟩)
    ∧ (∀ s : String, tenDecimalDigits s → mkPhone s = .ok ⟨s⟩ ∧ validPhoneStr s) := by
  refine ⟨?_, ?_, ?_⟩
  · intro s
    constructor
    · rintro ⟨p, hp, -⟩
      exact (mkPhone_eq_ok hp).2
    · intro h
      exact ⟨⟨s⟩, mkPhone_of_valid h, rfl⟩
  · intro s h
    unfold mkPhone
    exact if_neg h
  · intro s ⟨hlen, hdec⟩
    have hv : validPhoneStr s := by
      refine ⟨?_, hlen⟩
      unfold pyStrIsdigit
      rw [Bool.and_eq_true]
      constructor
      · cases hd : s.data with
        | nil =>
          rw [show s.length = s.data.length from rfl, hd] at hlen
          simp at hlen
        | cons c cs => rfl
      · rw [List.all_eq_true]
        intro c hc
        unfold pyIsDigit
        rw [hdec c hc]
        rfl
    exact ⟨mkPhone_of_valid hv, hv⟩

theorem phone_validation_rule_witness :
    mkPhone "0123456789" = .ok ⟨"0123456789"⟩ ∧ validPhoneStr "0123456789" :=
  phone_validation_rule.2.2 "0123456789" ⟨rfl, by decide⟩

/-- C2 counterexample: a string of ten superscript-two characters is not
ten decimal digits, yet `Phone` construction succeeds, because Python
`str.isdigit` accepts non-decimal Unicode digits. -/
theorem phone_validation_cex :
    (∃ p, mkPhone "²²²²²²²²²²" = .ok p) ∧ ¬ tenDecimalDigits "²²²²²²²²²²" :=
  ⟨⟨⟨"²²²²²²²²²²"⟩, by decide⟩, by decide⟩

/-! # C7 -/

/-- C7: every exception of the caught kinds that a handler body raises is
recovered at the handler boundary and printed as the single line
`Error: <message>` — the dispatch loop survives; in particular `add` with
only a name yields the unpacking-error line rather than an escaping
exception. -/
theorem handler_errors_recovered :
    (∀ e : PyErr, input_error (.error e) = "Error: " ++ e.msg)
    ∧ (∀ (today : Date) (book : Book) (line cmd : String) (args : List String),
        tokenize line = cmd :: args →
        lowerStr cmd ∈ handlerCmds →
        stepLine today book line =
          ((handleCommand today (lowerStr cmd) args book).2,
           [input_error (handleCommand today (lowerStr cmd) args book).1]))
    ∧ (∀ (today : Date) (book : Book) (name : String),
        (handleCommand today "add" [name] book).1 =
          .error ⟨.valueError, "not enough values to unpack (expected 2, got 1)"⟩
        ∧ input_error (handleCommand today "add" [name] book).1 =
            "Error: not enough values to unpack (expected 2, got 1)") := by
  refine ⟨fun e => rfl, ?_, ?_⟩
  · intro today book line cmd args htok hmem
    have hcmds : lowerStr cmd = "add" ∨ lowerStr cmd = "change" ∨ lowerStr cmd = "phone" ∨
        lowerStr cmd = "all" ∨ lowerStr cmd = "add-birthday" ∨
        lowerStr cmd = "show-birthday" ∨ lowerStr cmd = "birthdays" := by
      simpa [handlerCmds] using hmem
    unfold stepLine
    rw [htok]
    simp only [dispatchTokens]
    rw [if_neg, if_neg, if_pos hmem]
    · rcases hcmds with h | h | h | h | h | h | h <;> simp [h]
    · rcases hcmds with h | h | h | h | h | h | h <;> simp [h]
  · intro today book name
    refine ⟨?_, ?_⟩ <;> simp [handleCommand, add_contact, unpackErr, input_error] <;> decide

theorem handler_errors_recovered_witness :
    stepLine ⟨2024, 6, 10⟩ [] "add bob" =
      ((handleCommand ⟨2024, 6, 10⟩ "add" ["bob"] []).2,
       [input_error (handleCommand ⟨2024, 6, 10⟩ "add" ["bob"] []).1])
    ∧ (handleCommand ⟨2024, 6, 10⟩ "add" ["bob"] []).1 =
        .error ⟨.valueError, "not enough values to unpack (expected 2, got 1)"⟩ :=
  ⟨handler_errors_recovered.2.1 ⟨2024, 6, 10⟩ [] "add bob" "add" ["bob"] rfl (by decide),
   (handler_errors_recovered.2.2 ⟨2024, 6, 10⟩ [] "bob").1⟩

/-! # C8 -/

/-- C8: a line whose (lower-cased) first token is none of the recognized
commands leaves the book unchanged and prints exactly the
unknown-command message. -/
theorem unknown_command_frame :
    ∀ (today : Date) (book : Book) (line cmd : String) (args : List String),
      tokenize line = cmd :: args →
      lowerStr cmd ∉ ["hello", "add", "change", "phone", "all", "add-birthday",
                      "show-birthday", "birthdays", "close", "exit"] →
      stepLine today book line = (book, ["Unknown command. Try again."]) := by
  intro today book line cmd args htok hmem
  simp only [List.mem_cons, List.not_mem_nil, or_false] at hmem
  push_neg at hmem
  obtain ⟨hhello, hadd, hchange, hphone, hall, haddb, hshowb, hbdays, hclose, hexit⟩ := hmem
  have hnotin : lowerStr cmd ∉ handlerCmds := by
    simp only [handlerCmds, List.mem_cons, List.not_mem_nil, or_false]
    tauto
  unfold stepLine
  rw [htok]
  simp only [dispatchTokens]
  rw [if_neg (by tauto), if_neg hhello, if_neg hnotin]

theorem unknown_command_frame_witness :
    stepLine ⟨2024, 6, 10⟩ [("bob", ⟨"bob", [⟨"1234567890"⟩], none⟩)] "frobnicate now"
      = ([("bob", ⟨"bob", [⟨"1234567890"⟩], none⟩)], ["Unknown command. Try again."]) :=
  unknown_command_frame ⟨2024, 6, 10⟩ [("bob", ⟨"bob", [⟨"1234567890"⟩], none⟩)]
    "frobnicate now" "frobnicate" ["now"] rfl (by decide)

/-! # Calendar arithmetic lemmas -/

theorem isLeapYear_iff {y : Nat} :
    isLeapYear y = true ↔ (y % 4 = 0 ∧ (y % 100 ≠ 0 ∨ y % 400 = 0)) := by
  simp [isLeapYear, Bool.and_eq_true, beq_iff_eq, Bool.or_eq_true, bne_iff_ne]

theorem daysInMonth_pos (y m : Nat) : 1 ≤ daysInMonth y m := by
  unfold daysInMonth
  split
  · split <;> norm_num
  · split <;> norm_num

set_option maxHeartbeats 1000000 in
theorem daysBeforeYear_succ {y : Nat} (h : 1 ≤ y) :
    daysBeforeYear (y + 1) = daysBeforeYear y + (if isLeapYear y = true then 366 else 365) := by
  unfold daysBeforeYear
  by_cases hc : isLeapYear y = true
  · rw [if_pos hc]
    rw [isLeapYear_iff] at hc
    obtain ⟨h4, hrest⟩ := hc
    rcases hrest with h100 | h400
    · omega
    · omega
  · rw [if_neg hc]
    rw [isLeapYear_iff] at hc
    push_neg at hc
    by_cases h4 : y % 4 = 0
    · obtain ⟨h100, h400⟩ := hc h4
      omega
    · omega

theorem daysBeforeMonth_step (y : Nat) {m : Nat} (h1 : 1 ≤ m) (h2 : m ≤ 11) :
    daysBeforeMonth y (m + 1) = daysBeforeMonth y m + daysInMonth y m := by
  have hcase : m = 1 ∨ m = 2 ∨ m = 3 ∨ m = 4 ∨ m = 5 ∨ m = 6 ∨ m = 7 ∨ m = 8 ∨
      m = 9 ∨ m = 10 ∨ m = 11 := by omega
  rcases hcase with rfl | rfl | rfl | rfl | rfl | rfl | rfl | rfl | rfl | rfl | rfl <;>
    by_cases hL : isLeapYear y = true <;>
      simp [daysBeforeMonth, daysInMonth, hL]

theorem nextDay_ord {d : Date} (h : d.valid) : (nextDay d).ord = d.ord + 1 := by
  obtain ⟨hy, hm1, hm2, hd1, hd2⟩ := h
  unfold nextDay
  split
  · next hlt =>
    simp only [Date.ord]
    omega
  · next hge =>
    have hde : d.day = daysInMonth d.year d.month := by omega
    split
    · next hm12 =>
      have hstep := daysBeforeMonth_step d.year hm1 (show d.month ≤ 11 by omega)
      simp only [Date.ord]
      omega
    · next hm12 =>
      have hm : d.month = 12 := by omega
      have hsucc := daysBeforeYear_succ hy
      have hdbm : daysBeforeMonth d.year d.month =
          334 + (if isLeapYear d.year = true then 1 else 0) := by
        rw [hm]
        by_cases hL : isLeapYear d.year = true <;> simp [daysBeforeMonth, hL]
      have hdim : daysInMonth d.year d.month = 31 := by
        rw [hm]; simp [daysInMonth]
      have hb1 : daysBeforeMonth (d.year + 1) 1 = 0 := by simp [daysBeforeMonth]
      simp only [Date.ord]
      rw [hb1, hsucc, hdbm]
      cases hL : isLeapYear d.year <;> simp [hL] <;> omega

theorem nextDay_valid {d : Date} (h : d.valid) : (nextDay d).valid := by
  obtain ⟨hy, hm1, hm2, hd1, hd2⟩ := h
  unfold nextDay
  split
  · next hlt =>
    refine ⟨hy, hm1, hm2, ?_, ?_⟩
    · show 1 ≤ d.day + 1
      omega
    · show d.day + 1 ≤ daysInMonth d.year d.month
      omega
  · split
    · next hm12 =>
      refine ⟨hy, ?_, ?_, ?_, ?_⟩
      · show 1 ≤ d.month + 1
        omega
      · show d.month + 1 ≤ 12
        omega
      · show (1 : Nat) ≤ 1
        omega
      · show 1 ≤ daysInMonth d.year (d.month + 1)
        exact daysInMonth_pos d.year (d.month + 1)
    · refine ⟨?_, ?_, ?_, ?_, ?_⟩
      · show 1 ≤ d.year + 1
        omega
      · show (1 : Nat) ≤ 1
        omega
      · show (1 : Nat) ≤ 12
        omega
      · show (1 : Nat) ≤ 1
        omega
      · show 1 ≤ daysInMonth (d.year + 1) 1
        exact daysInMonth_pos (d.year + 1) 1

theorem addDays_ord_valid {d : Date} (h : d.valid) (k : Nat) :
    (addDays d k).ord = d.ord + k ∧ (addDays d k).valid := by
  induction k with
  | zero => exact ⟨rfl, h⟩
  | succ k ih =>
    refine ⟨?_, nextDay_valid ih.2⟩
    show (nextDay (addDays d k)).ord = d.ord + (k + 1)
    rw [nextDay_ord ih.2, ih.1]
    omega

theorem parseBirthday_valid {s : String} {d : Date} (h : parseBirthday s = some d) :
    d.valid ∧ d.year ≤ 9999 := by
  unfold parseBirthday at h
  split at h
  · split at h
    · next hc =>
      cases h
      exact ⟨⟨hc.1, hc.2.2.1, hc.2.2.2.1, hc.2.2.2.2.1, hc.2.2.2.2.2⟩, hc.2.1⟩
    · cases h
  · cases h

theorem dateReplaceYear_eq_ok {d : Date} {y : Nat} {d2 : Date}
    (h : dateReplaceYear d y = .ok d2) :
    d2 = ⟨y, d.month, d.day⟩ ∧ 1 ≤ y ∧ y ≤ 9999 ∧ d.day ≤ daysInMonth y d.month := by
  unfold dateReplaceYear at h
  split at h
  · cases h
  · next hy =>
    split at h
    · next hd => exact ⟨by cases h; rfl, by omega, by omega, hd⟩
    · cases h

theorem dateReplaceYear_valid {d : Date} {y : Nat} {d2 : Date}
    (hv : d.valid) (h : dateReplaceYear d y = .ok d2) : d2.valid := by
  obtain ⟨heq, hy1, hy2, hdle⟩ := dateReplaceYear_eq_ok h
  obtain ⟨b1, b2, b3, b4, b5⟩ := hv
  rw [heq]
  exact ⟨hy1, b2, b3, b4, hdle⟩

theorem rolledOcc_valid {today bday occ : Date}
    (hv : bday.valid) (h : rolledOcc today bday = .ok occ) : occ.valid := by
  unfold rolledOcc at h
  split at h
  · cases h
  · next b1 hb1 =>
    split at h
    · exact dateReplaceYear_valid hv h
    · cases h
      exact dateReplaceYear_valid hv hb1

theorem dateLt_same_year (t : Date) (mm dd : Nat) :
    dateLt ⟨t.year, mm, dd⟩ t = mdPassed t ⟨0, mm, dd⟩ := by
  unfold dateLt mdPassed
  simp only [if_pos rfl]
  by_cases hm : mm = t.month
  · simp [hm]
  · simp [hm]

theorem rolledOcc_spec {today bday occ : Date} (h : rolledOcc today bday = .ok occ) :
    occ.month = bday.month ∧ occ.day = bday.day ∧
      occ.year = (if mdPassed today bday = true then today.year + 1 else today.year) := by
  have hmd : mdPassed today bday = mdPassed today ⟨0, bday.month, bday.day⟩ := rfl
  unfold rolledOcc at h
  split at h
  · cases h
  · next b1 hb1 =>
    obtain ⟨heq1, -, -, -⟩ := dateReplaceYear_eq_ok hb1
    split at h
    · next hlt =>
      obtain ⟨heq2, -, -, -⟩ := dateReplaceYear_eq_ok h
      rw [heq1, dateLt_same_year today bday.month bday.day] at hlt
      refine ⟨by rw [heq2], by rw [heq2], ?_⟩
      rw [heq2, hmd, hlt]
      simp
    · next hlt =>
      cases h
      rw [heq1, dateLt_same_year today bday.month bday.day] at hlt
      have hf : mdPassed today ⟨0, bday.month, bday.day⟩ = false :=
        Bool.eq_false_iff.mpr hlt
      refine ⟨by rw [heq1], by rw [heq1], ?_⟩
      rw [heq1, hmd, hf]
      simp

theorem processRecord_eq {today : Date} {r : Record} {b : Birthday} {bday occ : Date}
    (hb : r.birthday = some b)
    (hp : parseBirthday b.value = some bday)
    (hr : rolledOcc today bday = .ok occ) :
    processRecord today r =
      .ok (if (occ.ord : Int) - (today.ord : Int) ≤ 7
           then some (r.name, fmtDate (weekendShift occ)) else none) := by
  simp only [processRecord, hb, strptimeDMY, hp, hr]
  split <;> rfl

/-! # C1 -/

/-- C1 (amended): for every record whose birthday occurrence is
representable, `get_upcoming_birthdays` takes the current-year occurrence of
the stored birthday, rolls it forward one year exactly when its
month/day already passed relative to today, includes the record iff the
occurrence is at most 7 days away, shifting a Saturday occurrence by 2
days and a Sunday occurrence by 1 day onto the following Monday; with
today = 10.06.2024 (a Monday) a 15.06 birthday is returned as
17.06.2024 and a 01.01 birthday is excluded.  (A Feb 29 birthday whose
occurrence year is not a leap year is not representable: the scan then
raises instead — see the counterexample.) -/
theorem upcoming_birthdays_rule :
    (∀ (today : Date) (r : Record) (b : Birthday) (bday occ : Date),
      r.birthday = some b →
      parseBirthday b.value = some bday →
      rolledOcc today bday = .ok occ →
      (occ.month = bday.month ∧ occ.day = bday.day ∧
        occ.year = (if mdPassed today bday = true then today.year + 1 else today.year)) ∧
      processRecord today r =
        .ok (if (occ.ord : Int) - (today.ord : Int) ≤ 7
             then some (r.name, fmtDate (weekendShift occ)) else none) ∧
      (occ.weekday = 5 → weekendShift occ = addDays occ 2 ∧ (weekendShift occ).weekday = 0) ∧
      (occ.weekday = 6 → weekendShift occ = addDays occ 1 ∧ (weekendShift occ).weekday = 0) ∧
      (occ.weekday ≤ 4 → weekendShift occ = occ))
    ∧ getUpcomingBirthdays ⟨2024, 6, 10⟩ [("Alice", ⟨"Alice", [], some ⟨"15.06.2000"⟩⟩)]
        = .ok [("Alice", "17.06.2024")]
    ∧ getUpcomingBirthdays ⟨2024, 6, 10⟩ [("Bob", ⟨"Bob", [], some ⟨"01.01.2000"⟩⟩)] = .ok []
    ∧ Date.weekday ⟨2024, 6, 10⟩ = 0 := by
  refine ⟨?_, by decide, by decide, by decide⟩
  intro today r b bday occ hb hp hr
  have hoccv : occ.valid := rolledOcc_valid (parseBirthday_valid hp).1 hr
  refine ⟨rolledOcc_spec hr, processRecord_eq hb hp hr, ?_, ?_, ?_⟩
  · intro hw
    have hsh : weekendShift occ = addDays occ 2 := by
      unfold weekendShift
      rw [if_pos (by omega), hw]
    refine ⟨hsh, ?_⟩
    rw [hsh]
    show ((addDays occ 2).ord + 6) % 7 = 0
    rw [(addDays_ord_valid hoccv 2).1]
    have : (occ.ord + 6) % 7 = 5 := hw
    omega
  · intro hw
    have hsh : weekendShift occ = addDays occ 1 := by
      unfold weekendShift
      rw [if_pos (by omega), hw]
    refine ⟨hsh, ?_⟩
    rw [hsh]
    show ((addDays occ 1).ord + 6) % 7 = 0
    rw [(addDays_ord_valid hoccv 1).1]
    have : (occ.ord + 6) % 7 = 6 := hw
    omega
  · intro hw
    unfold weekendShift
    rw [if_neg (by omega)]

theorem upcoming_birthdays_rule_witness :
    processRecord ⟨2024, 6, 10⟩ ⟨"Alice", [], some ⟨"15.06.2000"⟩⟩ =
      .ok (if ((Date.ord ⟨2024, 6, 15⟩ : Int) - (Date.ord ⟨2024, 6, 10⟩ : Int) ≤ 7)
           then some ("Alice", fmtDate (weekendShift ⟨2024, 6, 15⟩)) else none) :=
  (upcoming_birthdays_rule.1 ⟨2024, 6, 10⟩ ⟨"Alice", [], some ⟨"15.06.2000"⟩⟩
    ⟨"15.06.2000"⟩ ⟨2000, 6, 15⟩ ⟨2024, 6, 15⟩ rfl (by decide) (by decide)).2.1

/-- C1 counterexample: the claim quantifies over every record with a
birthday, but a Feb 29 birthday in a non-leap target year makes
`date.replace` raise, so the scan produces an error instead of a list —
the record is neither included nor merely excluded. -/
theorem upcoming_birthdays_leapday_cex :
    getUpcomingBirthdays ⟨2023, 6, 10⟩ [("Carl", ⟨"Carl", [], some ⟨"29.02.2000"⟩⟩)]
      = .error ⟨.valueError, "day is out of range for month"⟩ := by decide

/-! # C10 -/

/-- C10: a birthday occurrence falling exactly on today is not rolled
forward (the "already passed" comparison is strict) and is included in
the result, and an occurrence exactly 7 days away is also included:
the window is inclusive at both ends. -/
theorem window_boundary_included :
    (∀ (today : Date) (r : Record) (b : Birthday) (bday : Date),
      r.birthday = some b →
      parseBirthday b.value = some bday →
      dateReplaceYear bday today.year = .ok today →
      rolledOcc today bday = .ok today ∧
      processRecord today r = .ok (some (r.name, fmtDate (weekendShift today))))
    ∧ (∀ (today : Date) (r : Record) (b : Birthday) (bday occ : Date),
      r.birthday = some b →
      parseBirthday b.value = some bday →
      rolledOcc today bday = .ok occ →
      occ.ord = today.ord + 7 →
      processRecord today r = .ok (some (r.name, fmtDate (weekendShift occ)))) := by
  constructor
  · intro today r b bday hb hp hrep
    have hirr : dateLt today today = false := by
      unfold dateLt
      simp
    have hroll : rolledOcc today bday = .ok today := by
      simp [rolledOcc, hrep, hirr]
    refine ⟨hroll, ?_⟩
    rw [processRecord_eq hb hp hroll]
    rw [if_pos (by omega)]
  · intro today r b bday occ hb hp hr hord
    rw [processRecord_eq hb hp hr]
    rw [if_pos (by rw [hord]; push_cast; omega)]

/-! # `strptime` pattern characterization (for C3) -/

theorem isAsciiDecimal_bounds {c : Char} (h : isAsciiDecimal c = true) :
    48 ≤ c.toNat ∧ c.toNat ≤ 57 := by
  simpa [isAsciiDecimal] using h

theorem digitVal_le_9 {c : Char} (h : isAsciiDecimal c = true) : digitVal c ≤ 9 := by
  obtain ⟨h1, h2⟩ := isAsciiDecimal_bounds h
  unfold digitVal
  omega

theorem char_toNat_inj {a b : Char} (h : a.toNat = b.toNat) : a = b :=
  Char.eq_of_val_eq (UInt32.ext h)

theorem digitVal_pos {c : Char} (h : isAsciiDecimal c = true) (h0 : c ≠ '0') :
    1 ≤ digitVal c := by
  obtain ⟨hl, hr⟩ := isAsciiDecimal_bounds h
  have hne : c.toNat ≠ 48 := fun hh => h0 (char_toNat_inj (hh.trans (by decide)))
  unfold digitVal
  omega

theorem pyIsDecDigit_of_ascii {c : Char} (h : isAsciiDecimal c = true) :
    pyIsDecDigit c = true := by
  obtain ⟨h1, h2⟩ := isAsciiDecimal_bounds h
  unfold pyIsDecDigit ndBases
  simp only [List.any_cons, Bool.or_eq_true, Bool.and_eq_true, decide_eq_true_eq]
  exact Or.inl ⟨h1, by omega⟩

theorem decDigitVal_ascii {c : Char} (h : isAsciiDecimal c = true) :
    decDigitVal c = digitVal c := by
  obtain ⟨h1, h2⟩ := isAsciiDecimal_bounds h
  have hfind : ndBases.find?
      (fun base => decide (base ≤ c.toNat) && decide (c.toNat ≤ base + 9)) = some 48 := by
    unfold ndBases
    rw [List.find?_cons_of_pos]
    simp only [Bool.and_eq_true, decide_eq_true_eq]
    exact ⟨h1, by omega⟩
  unfold decDigitVal
  rw [hfind]
  rfl

theorem decDigitVal_le_9 (c : Char) : decDigitVal c ≤ 9 := by
  unfold decDigitVal
  split
  · next base hfind =>
    have hp := List.find?_some hfind
    simp only [Bool.and_eq_true, decide_eq_true_eq] at hp
    omega
  · omega

theorem orTry_eq_some {α : Type} {x y : Option α} {v : α} (h : orTry x y = some v) :
    x = some v ∨ (x = none ∧ y = some v) := by
  cases hx : x with
  | some w =>
    rw [hx] at h
    unfold orTry at h
    exact Or.inl h
  | none =>
    rw [hx] at h
    unfold orTry at h
    exact Or.inr ⟨rfl, h⟩

theorem digitsVal_pair (a b : Char) : digitsVal [a, b] = 10 * digitVal a + digitVal b := by
  unfold digitsVal
  simp only [List.foldl]
  omega

theorem digitsVal_single (a : Char) : digitsVal [a] = digitVal a := by
  unfold digitsVal
  simp only [List.foldl]
  omega

theorem decDigitsVal_four (a b c d : Char) :
    decDigitsVal [a, b, c, d] =
      1000 * decDigitVal a + 100 * decDigitVal b + 10 * decDigitVal c + decDigitVal d := by
  unfold decDigitsVal
  simp only [List.foldl]
  omega

theorem day2_some_tok {a b : Char} {d : Nat} (h : day2 a b = some d) :
    dayTokenV [a, b] d := by
  unfold day2 at h
  split at h
  · next h3 =>
    obtain ⟨ha, hb⟩ := h3
    subst ha
    cases h
    rcases hb with rfl | rfl
    · exact ⟨by decide, Or.inl ⟨'3', '0', rfl, by decide, by decide, by decide, by decide,
        Or.inr (Or.inr (by decide))⟩⟩
    · exact ⟨by decide, Or.inl ⟨'3', '1', rfl, by decide, by decide, by decide, by decide,
        Or.inr (Or.inr (by decide))⟩⟩
  · split at h
    · next h12 =>
      obtain ⟨ha, hb⟩ := h12
      cases h
      have hd9 := decDigitVal_le_9 b
      rcases ha with rfl | rfl
      · refine ⟨?_, Or.inl ⟨'1', b, rfl, by decide, hb, rfl, ?_, Or.inl rfl⟩⟩
        · have h1v : digitVal '1' = 1 := by decide
          omega
        · have h1v : digitVal '1' = 1 := by decide
          omega
      · refine ⟨?_, Or.inl ⟨'2', b, rfl, by decide, hb, rfl, ?_, Or.inr (Or.inl rfl)⟩⟩
        · have h2v : digitVal '2' = 2 := by decide
          omega
        · have h2v : digitVal '2' = 2 := by decide
          omega
    · split at h
      · next h0 =>
        obtain ⟨ha, hb, hb0⟩ := h0
        subst ha
        cases h
        have h9 := digitVal_le_9 hb
        have h1 := digitVal_pos hb hb0
        refine ⟨h1, Or.inl ⟨'0', b, rfl, by decide, pyIsDecDigit_of_ascii hb, ?_, by omega,
          Or.inr (Or.inr hb)⟩⟩
        rw [decDigitVal_ascii hb]
        have h0v : digitVal '0' = 0 := by decide
        omega
      · split at h
        · next hsp =>
          obtain ⟨ha, hb, hb0⟩ := hsp
          subst ha
          cases h
          have h9 := digitVal_le_9 hb
          have h1 := digitVal_pos hb hb0
          exact ⟨h1, Or.inr (Or.inl ⟨b, rfl, hb, rfl, h9⟩)⟩
        · cases h

theorem day2_complete {a b : Char} {d : Nat} (h : dayTokenV [a, b] d) :
    day2 a b = some d := by
  obtain ⟨h1, hbr⟩ := h
  rcases hbr with ⟨a1, b1, heq, ha, hb, hval, h31, hside⟩ | ⟨b1, heq, hb, hval, h9⟩ |
    ⟨a1, heq, -⟩
  · obtain ⟨ha1, htl⟩ := List.cons.inj heq
    obtain ⟨hb1, -⟩ := List.cons.inj htl
    subst ha1
    subst hb1
    have hda : digitVal a = a.toNat - 48 := rfl
    obtain ⟨hal, har⟩ := isAsciiDecimal_bounds ha
    have hd9b := decDigitVal_le_9 b
    have hcase : digitVal a = 0 ∨ digitVal a = 1 ∨ digitVal a = 2 ∨ digitVal a = 3 := by
      omega
    rcases hcase with hv | hv | hv | hv
    · have haz : a = '0' := char_toNat_inj (by
        have hn : a.toNat = 48 := by omega
        rw [hn]
        decide)
      subst haz
      rcases hside with h' | h' | hbb
      · exact absurd h' (by decide)
      · exact absurd h' (by decide)
      · have hz : digitVal '0' = 0 := by decide
        have hbz : b ≠ '0' := by
          rintro rfl
          have hz2 : decDigitVal '0' = 0 := by decide
          omega
        unfold day2
        rw [if_neg (by rintro ⟨h', -⟩; exact absurd h' (by decide)),
          if_neg (by rintro ⟨h', -⟩; rcases h' with h' | h' <;> exact absurd h' (by decide)),
          if_pos ⟨rfl, hbb, hbz⟩]
        have hdv : digitVal b = d := by
          rw [decDigitVal_ascii hbb] at hval
          omega
        rw [hdv]
    · have hao : a = '1' := char_toNat_inj (by
        have hn : a.toNat = 49 := by omega
        rw [hn]
        decide)
      subst hao
      unfold day2
      rw [if_neg (by rintro ⟨h', -⟩; exact absurd h' (by decide)),
        if_pos ⟨Or.inl rfl, hb⟩, hval]
    · have hat : a = '2' := char_toNat_inj (by
        have hn : a.toNat = 50 := by omega
        rw [hn]
        decide)
      subst hat
      unfold day2
      rw [if_neg (by rintro ⟨h', -⟩; exact absurd h' (by decide)),
        if_pos ⟨Or.inr rfl, hb⟩, hval]
    · have hah : a = '3' := char_toNat_inj (by
        have hn : a.toNat = 51 := by omega
        rw [hn]
        decide)
      subst hah
      rcases hside with h' | h' | hbb
      · exact absurd h' (by decide)
      · exact absurd h' (by decide)
      · have h3v : digitVal '3' = 3 := by decide
        have hdvb := decDigitVal_ascii hbb
        obtain ⟨hbl, hbr2⟩ := isAsciiDecimal_bounds hbb
        have hdb : digitVal b = b.toNat - 48 := rfl
        have hb01 : b = '0' ∨ b = '1' := by
          have hn : b.toNat = 48 ∨ b.toNat = 49 := by omega
          rcases hn with h' | h'
          · exact Or.inl (char_toNat_inj (by rw [h']; decide))
          · exact Or.inr (char_toNat_inj (by rw [h']; decide))
        unfold day2
        rw [if_pos ⟨rfl, hb01⟩]
        have hdv : 30 + digitVal b = d := by omega
        rw [hdv]
  · obtain ⟨ha1, htl⟩ := List.cons.inj heq
    obtain ⟨hb1, -⟩ := List.cons.inj htl
    subst ha1
    subst hb1
    have hbz : b ≠ '0' := by
      rintro rfl
      have hz : digitVal '0' = 0 := by decide
      omega
    unfold day2
    rw [if_neg (by rintro ⟨h', -⟩; exact absurd h' (by decide)),
      if_neg (by rintro ⟨h', -⟩; rcases h' with h' | h' <;> exact absurd h' (by decide)),
      if_neg (by rintro ⟨h', -⟩; exact absurd h' (by decide)),
      if_pos ⟨rfl, hb, hbz⟩, hval]
  · exact absurd heq (by simp)

theorem day2_dot_none (a : Char) : day2 a '.' = none := by
  unfold day2
  rw [if_neg (by rintro ⟨-, h⟩; rcases h with h | h <;> exact absurd h (by decide)),
    if_neg (by rintro ⟨-, h⟩; exact absurd h (by decide)),
    if_neg (by rintro ⟨-, h, -⟩; exact absurd h (by decide)),
    if_neg (by rintro ⟨-, h, -⟩; exact absurd h (by decide))]

theorem day1_eq_some {a : Char} {d : Nat} :
    day1 a = some d ↔ (isAsciiDecimal a = true ∧ 1 ≤ d ∧ d ≤ 9 ∧ digitVal a = d) := by
  constructor
  · intro h
    unfold day1 at h
    split at h
    · next hc =>
      cases h
      exact ⟨hc.1, hc.2, digitVal_le_9 hc.1, rfl⟩
    · cases h
  · rintro ⟨hdec, h1, -, hval⟩
    unfold day1
    rw [if_pos ⟨hdec, by omega⟩, hval]

theorem day1_dayTok {a : Char} {d : Nat} (h : day1 a = some d) : dayTokenV [a] d := by
  obtain ⟨hdec, h1, h9, hval⟩ := day1_eq_some.mp h
  exact ⟨h1, Or.inr (Or.inr ⟨a, rfl, hdec, hval.symm, h9⟩)⟩

theorem day1_monthTok {a : Char} {m : Nat} (h : day1 a = some m) : monthTokenV [a] m := by
  obtain ⟨hdec, h1, h9, hval⟩ := day1_eq_some.mp h
  exact ⟨by rw [digitsVal_single, hval], by simp [hdec], h1, Or.inr ⟨rfl, h9⟩⟩

theorem month2_some_tok {a b : Char} {m : Nat} (h : month2 a b = some m) :
    monthTokenV [a, b] m := by
  unfold month2 at h
  split at h
  · next hdec =>
    split at h
    · next hr =>
      cases h
      refine ⟨by rw [digitsVal_pair], by simp [hdec.1, hdec.2], hr.1, Or.inl ⟨rfl, hr.2⟩⟩
    · cases h
  · cases h

theorem month2_complete {a b : Char} {m : Nat} (h : monthTokenV [a, b] m) :
    month2 a b = some m := by
  obtain ⟨hval, hall, h1, hbr⟩ := h
  rw [digitsVal_pair] at hval
  simp only [List.all_cons, List.all_nil, Bool.and_eq_true, Bool.and_true] at hall
  rcases hbr with ⟨-, hle⟩ | ⟨hlen, -⟩
  · unfold month2
    rw [if_pos ⟨hall.1, hall.2⟩, if_pos ⟨by omega, by omega⟩, hval]
  · simp at hlen

theorem month2_dot_none (a : Char) : month2 a '.' = none := by
  unfold month2
  rw [if_neg]
  rintro ⟨-, hdot⟩
  exact absurd hdot (by decide)

theorem year4_some_tok {cs : List Char} {y : Nat} (h : year4 cs = some y) :
    yearTokenV cs y := by
  unfold year4 at h
  split at h
  · next a b c d =>
    split at h
    · next hdec =>
      cases h
      refine ⟨by rw [decDigitsVal_four], ?_, rfl⟩
      simp [hdec.1, hdec.2.1, hdec.2.2.1, hdec.2.2.2]
    · cases h
  · cases h

theorem year4_complete {cs : List Char} {y : Nat} (h : yearTokenV cs y) :
    year4 cs = some y := by
  obtain ⟨hval, hall, hlen⟩ := h
  rcases cs with _ | ⟨a, _ | ⟨b, _ | ⟨c, _ | ⟨d, _ | ⟨e, tl⟩⟩⟩⟩⟩ <;> simp at hlen
  simp only [List.all_cons, List.all_nil, Bool.and_eq_true, Bool.and_true] at hall
  rw [decDigitsVal_four] at hval
  simp only [year4]
  rw [if_pos ⟨hall.1, hall.2.1, hall.2.2.1, hall.2.2.2⟩, hval]

theorem yearTok_le_9999 {C : List Char} {y : Nat} (h : yearTokenV C y) : y ≤ 9999 := by
  obtain ⟨hval, hall, hlen⟩ := h
  rcases C with _ | ⟨a, _ | ⟨b, _ | ⟨c, _ | ⟨d, _ | ⟨e, tl⟩⟩⟩⟩⟩ <;> simp at hlen
  rw [decDigitsVal_four] at hval
  have ha := decDigitVal_le_9 a
  have hb := decDigitVal_le_9 b
  have hc := decDigitVal_le_9 c
  have hd := decDigitVal_le_9 d
  omega

theorem parseYear_eq_some {d m : Nat} {rest : List Char} {t : Nat × Nat × Nat}
    (h : parseYear d m rest = some t) :
    ∃ C y, rest = '.' :: C ∧ yearTokenV C y ∧ t = (d, m, y) := by
  rcases rest with _ | ⟨c, cs⟩
  · exact absurd h (by simp [parseYear])
  · simp only [parseYear] at h
    split at h
    · next hc =>
      rw [Option.map_eq_some'] at h
      obtain ⟨y, hy, hv⟩ := h
      exact ⟨cs, y, by rw [hc], year4_some_tok hy, hv.symm⟩
    · cases h

theorem parseYear_complete (d m : Nat) {C : List Char} {y : Nat} (h : yearTokenV C y) :
    parseYear d m ('.' :: C) = some (d, m, y) := by
  simp only [parseYear]
  rw [if_pos trivial, year4_complete h]
  rfl

theorem parseFrom_eq_some {d : Nat} {rest : List Char} {t : Nat × Nat × Nat}
    (h : parseFrom d rest = some t) :
    ∃ B C m y, rest = '.' :: (B ++ '.' :: C) ∧ monthTokenV B m ∧ yearTokenV C y ∧
      t = (d, m, y) := by
  rcases rest with _ | ⟨c, _ | ⟨a, _ | ⟨b, rest3⟩⟩⟩
  · exact absurd h (by simp [parseFrom])
  · exact absurd h (by simp [parseFrom])
  · -- two characters: the one-digit month cannot be followed
    -- by a dot and a year, so this shape always fails
    simp only [parseFrom] at h
    split at h
    · rw [Option.bind_eq_some] at h
      obtain ⟨m, -, hpy⟩ := h
      exact absurd hpy (by simp [parseYear])
    · cases h
  · simp only [parseFrom] at h
    split at h
    · next hc =>
      rcases orTry_eq_some h with h1 | ⟨-, h2⟩
      · rw [Option.bind_eq_some] at h1
        obtain ⟨m, hm, hpy⟩ := h1
        obtain ⟨C, y, hC, hyt, ht⟩ := parseYear_eq_some hpy
        refine ⟨[a, b], C, m, y, ?_, month2_some_tok hm, hyt, ht⟩
        rw [hc, hC]
        rfl
      · rw [Option.bind_eq_some] at h2
        obtain ⟨m, hm, hpy⟩ := h2
        obtain ⟨C, y, hC, hyt, ht⟩ := parseYear_eq_some hpy
        obtain ⟨hb, hr3⟩ := List.cons.inj hC
        refine ⟨[a], C, m, y, ?_, day1_monthTok hm, hyt, ht⟩
        rw [hc, hb, hr3]
        rfl
    · cases h

theorem parseFrom_complete {B C : List Char} {m y : Nat} (d : Nat)
    (hm : monthTokenV B m) (hy : yearTokenV C y) :
    parseFrom d ('.' :: (B ++ '.' :: C)) = some (d, m, y) := by
  have hmm := hm
  obtain ⟨hval, hall, h1m, hbr⟩ := hmm
  rcases hbr with ⟨hlen, -⟩ | ⟨hlen, -⟩
  · rcases B with _ | ⟨a, _ | ⟨b, _ | ⟨c, tl⟩⟩⟩ <;> simp at hlen
    have hm2 : month2 a b = some m := month2_complete hm
    show parseFrom d ('.' :: a :: b :: ('.' :: C)) = some (d, m, y)
    simp only [parseFrom]
    rw [if_pos trivial, hm2, Option.some_bind, parseYear_complete d m hy]
    rfl
  · rcases B with _ | ⟨a, _ | ⟨b, tl⟩⟩ <;> simp at hlen
    have hm1 : day1 a = some m := by
      obtain ⟨hv, ha, h1, -⟩ := hm
      rw [digitsVal_single] at hv
      simp only [List.all_cons, List.all_nil, Bool.and_true] at ha
      exact day1_eq_some.mpr ⟨ha, h1, by have := digitVal_le_9 ha; omega, hv⟩
    show parseFrom d ('.' :: a :: '.' :: C) = some (d, m, y)
    simp only [parseFrom]
    rw [if_pos trivial, month2_dot_none, Option.none_bind, hm1, Option.some_bind,
      parseYear_complete d m hy]
    rfl

theorem parseDMY_eq_some {cs : List Char} {t : Nat × Nat × Nat}
    (h : parseDMY cs = some t) :
    ∃ A B C d m y, cs = A ++ '.' :: (B ++ '.' :: C) ∧ dayTokenV A d ∧ monthTokenV B m ∧
      yearTokenV C y ∧ t = (d, m, y) := by
  rcases cs with _ | ⟨a, _ | ⟨b, rest⟩⟩
  · exact absurd h (by simp [parseDMY])
  · exact absurd h (by simp [parseDMY])
  · simp only [parseDMY] at h
    rcases orTry_eq_some h with h1 | ⟨-, h2⟩
    · rw [Option.bind_eq_some] at h1
      obtain ⟨d0, hd, hpf⟩ := h1
      obtain ⟨B, C, m, y, hrest, hmt, hyt, ht⟩ := parseFrom_eq_some hpf
      refine ⟨[a, b], B, C, d0, m, y, ?_, day2_some_tok hd, hmt, hyt, ht⟩
      rw [hrest]
      rfl
    · rw [Option.bind_eq_some] at h2
      obtain ⟨d0, hd, hpf⟩ := h2
      obtain ⟨B, C, m, y, hrest, hmt, hyt, ht⟩ := parseFrom_eq_some hpf
      obtain ⟨hb, hr⟩ := List.cons.inj hrest
      refine ⟨[a], B, C, d0, m, y, ?_, day1_dayTok hd, hmt, hyt, ht⟩
      rw [hb, hr]
      rfl

theorem parseDMY_complete {A B C : List Char} {d m y : Nat}
    (hd : dayTokenV A d) (hm : monthTokenV B m) (hy : yearTokenV C y) :
    parseDMY (A ++ '.' :: (B ++ '.' :: C)) = some (d, m, y) := by
  have hdd := hd
  obtain ⟨h1d, hbr⟩ := hdd
  rcases hbr with ⟨a, b, heq, -⟩ | ⟨b, heq, -⟩ | ⟨a, heq, hrest⟩
  · subst heq
    have hd2 : day2 a b = some d := day2_complete hd
    show parseDMY (a :: b :: ('.' :: (B ++ '.' :: C))) = some (d, m, y)
    simp only [parseDMY]
    rw [hd2, Option.some_bind, parseFrom_complete d hm hy]
    rfl
  · subst heq
    have hd2 : day2 ' ' b = some d := day2_complete hd
    show parseDMY (' ' :: b :: ('.' :: (B ++ '.' :: C))) = some (d, m, y)
    simp only [parseDMY]
    rw [hd2, Option.some_bind, parseFrom_complete d hm hy]
    rfl
  · subst heq
    obtain ⟨ha, hval, h9⟩ := hrest
    have hd1 : day1 a = some d := day1_eq_some.mpr ⟨ha, h1d, h9, hval.symm⟩
    show parseDMY (a :: '.' :: (B ++ '.' :: C)) = some (d, m, y)
    simp only [parseDMY]
    rw [day2_dot_none, Option.none_bind, hd1, Option.some_bind, parseFrom_complete d hm hy]
    rfl

theorem parseBirthday_some_iff {s : String} :
    (∃ dd, parseBirthday s = some dd) ↔ specBirthdayAccepted s := by
  constructor
  · rintro ⟨dd, hdd⟩
    unfold parseBirthday at hdd
    split at hdd
    · next d0 m0 y0 heq =>
      split at hdd
      · next hcond =>
        obtain ⟨A, B, C, d1, m1, y1, hsplit, hdt, hmt, hyt, hteq⟩ := parseDMY_eq_some heq
        obtain ⟨hd, hm, hy⟩ : d0 = d1 ∧ m0 = m1 ∧ y0 = y1 := by
          have h1 := congrArg Prod.fst hteq
          have h2 := congrArg (fun p => p.2.1) hteq
          have h3 := congrArg (fun p => p.2.2) hteq
          exact ⟨h1, h2, h3⟩
        subst hd
        subst hm
        subst hy
        exact ⟨d0, m0, y0, A, B, C, hsplit, hdt, hmt, hyt,
          hcond.1, hcond.2.2.1, hcond.2.2.2.1, hcond.2.2.2.2.1, hcond.2.2.2.2.2⟩
      · cases hdd
    · cases hdd
  · rintro ⟨d, m, y, A, B, C, hsplit, hdt, hmt, hyt, hy1, hm1, hm12, hd1, hdim⟩
    refine ⟨⟨y, m, d⟩, ?_⟩
    unfold parseBirthday
    rw [hsplit, parseDMY_complete hdt hmt hyt]
    show (if 1 ≤ y ∧ y ≤ 9999 ∧ 1 ≤ m ∧ m ≤ 12 ∧ 1 ≤ d ∧ d ≤ daysInMonth y m then
        some (⟨y, m, d⟩ : Date) else none) = some ⟨y, m, d⟩
    rw [if_pos ⟨hy1, yearTok_le_9999 hyt, hm1, hm12, hd1, hdim⟩]

/-! # C3 -/

/-- C3 (amended): `Birthday` construction succeeds — storing the input
string unchanged, so valid strings round-trip exactly — precisely when
the string is day `.` month `.` year naming a real calendar date (year at
least 0001), where the day and month are one- or two-digit numerals
(zero-padding is *not* required), a single-digit day may also be written
space-padded, and — because `strptime` compiles `\d` without `re.ASCII` —
the `\d` positions (the second character of a two-digit day led by 1 or 2,
and all four year characters) accept any Unicode decimal digit; otherwise
it fails with the `InvalidFormat` message.  In particular an Arabic-Indic
year `"05.06.٢٠٢٤"` and a mixed-digit day `"1٥.06.2024"` are both
accepted, with the original string stored unchanged. -/
theorem birthday_validation_rule :
    (∀ s : String,
      ((∃ bd, mkBirthday s = .ok bd ∧ bd.value = s) ↔ specBirthdayAccepted s)
      ∧ (¬ specBirthdayAccepted s →
          mkBirthday s = .error ⟨.valueError, "Birthday must be in DD.MM.YYYY format."⟩))
    ∧ (∃ bd, mkBirthday "05.06.٢٠٢٤" = .ok bd ∧ bd.value = "05.06.٢٠٢٤")
    ∧ (∃ bd, mkBirthday "1٥.06.2024" = .ok bd ∧ bd.value = "1٥.06.2024") := by
  refine ⟨?_, ⟨⟨"05.06.٢٠٢٤"⟩, by decide, rfl⟩, ⟨⟨"1٥.06.2024"⟩, by decide, rfl⟩⟩
  intro s
  constructor
  · constructor
    · rintro ⟨bd, hok, -⟩
      obtain ⟨-, hsome⟩ := mkBirthday_eq_ok hok
      rcases hp : parseBirthday s with _ | dd
      · rw [hp] at hsome
        simp at hsome
      · exact parseBirthday_some_iff.mp ⟨dd, hp⟩
    · intro hspec
      obtain ⟨dd, hdd⟩ := parseBirthday_some_iff.mpr hspec
      unfold mkBirthday
      rw [hdd]
      exact ⟨⟨s⟩, rfl, rfl⟩
  · intro hspec
    unfold mkBirthday
    rcases hp : parseBirthday s with _ | dd
    · rfl
    · exact absurd (parseBirthday_some_iff.mp ⟨dd, hp⟩) hspec

theorem birthday_validation_rule_witness :
    ∃ bd, mkBirthday "05.06.2024" = .ok bd ∧ bd.value = "05.06.2024" :=
  (birthday_validation_rule.1 "05.06.2024").1.mpr
    ⟨5, 6, 2024, ['0', '5'], ['0', '6'], ['2', '0', '2', '4'],
      by decide,
      ⟨by decide, Or.inl ⟨'0', '5', rfl, by decide, by decide, by decide, by decide,
        Or.inr (Or.inr (by decide))⟩⟩,
      by decide, by decide, by decide, by decide, by decide, by decide, by decide⟩

/-- C3 counterexample: `"5.6.2024"` has no zero-padded two-digit day or
month, so the claim says construction must fail, yet `strptime` accepts
one-digit day and month fields and construction succeeds. -/
theorem birthday_validation_cex :
    (∃ bd, mkBirthday "5.6.2024" = .ok bd ∧ bd.value = "5.6.2024")
    ∧ strictPaddedBirthday "5.6.2024" = false :=
  ⟨⟨⟨"5.6.2024"⟩, by decide, rfl⟩, by decide⟩

theorem window_boundary_included_witness :
    (rolledOcc ⟨2024, 6, 10⟩ ⟨2000, 6, 10⟩ = .ok ⟨2024, 6, 10⟩ ∧
     processRecord ⟨2024, 6, 10⟩ ⟨"Dina", [], some ⟨"10.06.2000"⟩⟩
       = .ok (some ("Dina", fmtDate (weekendShift ⟨2024, 6, 10⟩))))
    ∧ processRecord ⟨2024, 6, 10⟩ ⟨"Edd", [], some ⟨"17.06.2000"⟩⟩
       = .ok (some ("Edd", fmtDate (weekendShift ⟨2024, 6, 17⟩))) :=
  ⟨window_boundary_included.1 ⟨2024, 6, 10⟩ ⟨"Dina", [], some ⟨"10.06.2000"⟩⟩
      ⟨"10.06.2000"⟩ ⟨2000, 6, 10⟩ rfl (by decide) (by decide),
   window_boundary_included.2 ⟨2024, 6, 10⟩ ⟨"Edd", [], some ⟨"17.06.2000"⟩⟩
      ⟨"17.06.2000"⟩ ⟨2000, 6, 17⟩ ⟨2024, 6, 17⟩ rfl (by decide) (by decide) (by decide)⟩

/-! # C5 -/

theorem bookGet_mem {name : String} {book : Book} {r : Record}
    (h : bookGet name book = some r) : (name, r) ∈ book := by
  induction book with
  | nil => cases h
  | cons kv rest ih =>
    obtain ⟨k, v⟩ := kv
    unfold bookGet at h
    split at h
    · next heq =>
      cases h
      subst heq
      exact List.mem_cons_self _ _
    · exact List.mem_cons_of_mem _ (ih h)

theorem mem_upsert {kv : String × Record} {k : String} {v : Record} {book : Book}
    (h : kv ∈ upsert k v book) : kv = (k, v) ∨ kv ∈ book := by
  unfold upsert at h
  split at h
  · rcases List.mem_map.mp h with ⟨p, hp, heq⟩
    by_cases hc : p.1 = k
    · rw [if_pos hc] at heq
      exact Or.inl heq.symm
    · rw [if_neg hc] at heq
      exact Or.inr (heq ▸ hp)
  · rcases List.mem_append.mp h with h1 | h1
    · exact Or.inr h1
    · exact Or.inl (by simpa using h1)

theorem nodup_keys_upsert {k : String} {v : Record} {book : Book}
    (h : (book.map Prod.fst).Nodup) : ((upsert k v book).map Prod.fst).Nodup := by
  unfold upsert
  split
  · have hkeys : (book.map (fun p => if p.1 = k then (k, v) else p)).map Prod.fst
        = book.map Prod.fst := by
      rw [List.map_map]
      apply List.map_congr_left
      intro p hp
      by_cases hc : p.1 = k
      · simp [hc]
      · simp [hc]
    rw [hkeys]
    exact h
  · next hany =>
    rw [List.map_append]
    simp only [List.map_cons, List.map_nil]
    rw [List.nodup_append]
    refine ⟨h, List.nodup_singleton _, ?_⟩
    intro a ha
    simp only [List.mem_singleton]
    intro hak
    rcases List.mem_map.mp ha with ⟨p, hp, hfst⟩
    exact hany (by
      rw [List.any_eq_true]
      refine ⟨p, hp, ?_⟩
      rw [beq_iff_eq, hfst, hak])

theorem BookOk_upsert {k : String} {v : Record} {book : Book}
    (h : BookOk book) (hv : RecordOk v) : BookOk (upsert k v book) := by
  refine ⟨?_, nodup_keys_upsert h.2⟩
  intro kv hkv
  rcases mem_upsert hkv with rfl | hin
  · exact hv
  · exact h.1 kv hin

theorem BookOk_addRecord {book : Book} {r : Record}
    (h : BookOk book) (hr : RecordOk r) : BookOk (addRecord book r) :=
  BookOk_upsert h hr

theorem emptyRecord_ok (name : String) : RecordOk ⟨name, [], none⟩ :=
  ⟨fun p hp => absurd hp (by simp), fun b hb => by cases hb⟩

theorem add_phone_keeps {r : Record} {s : String} {r2 : Record}
    (h : RecordOk r) (ha : Record.add_phone r s = .ok r2) : RecordOk r2 := by
  unfold Record.add_phone at ha
  split at ha
  · next p hp =>
    cases ha
    refine ⟨?_, h.2⟩
    intro q hq
    rcases List.mem_append.mp hq with hin | hin
    · exact h.1 q hin
    · obtain rfl := List.mem_singleton.mp hin
      obtain ⟨hv, hval⟩ := mkPhone_eq_ok hp
      rw [hv]
      exact hval
  · cases ha

theorem changeLoop_mem {old new : String} {l l2 : List Phone}
    (h : changeLoop old new l = .ok l2) :
    ∀ q ∈ l2, q ∈ l ∨ mkPhone new = .ok q := by
  induction l generalizing l2 with
  | nil => cases h
  | cons p rest ih =>
    unfold changeLoop at h
    split at h
    · split at h
      · next p2 hmk =>
        cases h
        intro q hq
        rcases List.mem_cons.mp hq with rfl | hq2
        · exact Or.inr hmk
        · exact Or.inl (List.mem_cons_of_mem _ hq2)
      · cases h
    · split at h
      · next l2a hcl =>
        cases h
        intro q hq
        rcases List.mem_cons.mp hq with rfl | hq2
        · exact Or.inl (List.mem_cons_self _ _)
        · rcases ih hcl q hq2 with hin | hmk
          · exact Or.inl (List.mem_cons_of_mem _ hin)
          · exact Or.inr hmk
      · cases h

theorem change_phone_keeps {r : Record} {old new : String} {r2 : Record}
    (h : RecordOk r) (hc : Record.change_phone r old new = .ok r2) : RecordOk r2 := by
  unfold Record.change_phone at hc
  split at hc
  · next l2 hcl =>
    cases hc
    refine ⟨?_, h.2⟩
    intro q hq
    rcases changeLoop_mem hcl q hq with hin | hmk
    · exact h.1 q hin
    · obtain ⟨hv, hval⟩ := mkPhone_eq_ok hmk
      rw [hv]
      exact hval
  · cases hc

theorem add_birthday_keeps {r : Record} {s : String} {r2 : Record}
    (h : RecordOk r) (ha : Record.add_birthday r s = .ok r2) : RecordOk r2 := by
  unfold Record.add_birthday at ha
  split at ha
  · next b hb =>
    cases ha
    refine ⟨h.1, ?_⟩
    intro b2 hb2
    cases hb2
    obtain ⟨hv, hsome⟩ := mkBirthday_eq_ok hb
    rw [hv]
    exact hsome
  · cases ha

theorem add_contact_pres {args : List String} {book : Book} (h : BookOk book) :
    BookOk (add_contact args book).2 := by
  unfold add_contact
  split
  · next name phone =>
    split
    · next record hg =>
      split
      · next r2 hap =>
        exact BookOk_upsert h (add_phone_keeps (h.1 _ (bookGet_mem hg)) hap)
      · exact h
    · split
      · next r2 hap =>
        exact BookOk_addRecord h (add_phone_keeps (emptyRecord_ok name) hap)
      · exact h
  · exact h

theorem change_contact_pres {args : List String} {book : Book} (h : BookOk book) :
    BookOk (change_contact args book).2 := by
  unfold change_contact
  split
  · next name oldPhone newPhone =>
    split
    · next record hg =>
      split
      · next r2 hc =>
        exact BookOk_upsert h (change_phone_keeps (h.1 _ (bookGet_mem hg)) hc)
      · exact h
    · exact h
  · exact h

theorem show_phone_pres {args : List String} {book : Book} (h : BookOk book) :
    BookOk (show_phone args book).2 := by
  unfold show_phone
  split
  · exact h
  · split
    · exact h
    · exact h

theorem add_birthday_handler_pres {args : List String} {book : Book} (h : BookOk book) :
    BookOk (add_birthday_handler args book).2 := by
  unfold add_birthday_handler
  split
  · next name birthday =>
    split
    · next record hg =>
      split
      · next r2 hab =>
        exact BookOk_upsert h (add_birthday_keeps (h.1 _ (bookGet_mem hg)) hab)
      · exact h
    · split
      · next r2 hab =>
        exact BookOk_upsert (BookOk_addRecord h (emptyRecord_ok name))
          (add_birthday_keeps (emptyRecord_ok name) hab)
      · exact BookOk_addRecord h (emptyRecord_ok name)
  · exact h

theorem show_birthday_pres {args : List String} {book : Book} (h : BookOk book) :
    BookOk (show_birthday args book).2 := by
  unfold show_birthday
  split
  · exact h
  · split
    · split
      · exact h
      · exact h
    · exact h

theorem handleCommand_pres {today : Date} {cmd : String} {args : List String} {book : Book}
    (h : BookOk book) : BookOk (handleCommand today cmd args book).2 := by
  unfold handleCommand
  split
  · exact add_contact_pres h
  · split
    · exact change_contact_pres h
    · split
      · exact show_phone_pres h
      · split
        · exact h
        · split
          · exact add_birthday_handler_pres h
          · split
            · exact show_birthday_pres h
            · split
              · exact h
              · exact h

theorem dispatchTokens_pres {today : Date} {book : Book} {toks : List String}
    (h : BookOk book) : BookOk (dispatchTokens today book toks).1 := by
  unfold dispatchTokens
  split
  · exact h
  · split
    · exact h
    · split
      · exact h
      · split
        · exact handleCommand_pres h
        · exact h

theorem stepLine_pres {today : Date} {book : Book} {line : String}
    (h : BookOk book) : BookOk (stepLine today book line).1 :=
  dispatchTokens_pres h

/-- C5: every book reachable by the dispatch loop satisfies the
invariant — every stored phone passes the ten-digit check, every stored
birthday parses under the date format, and no two entries share a name
key — and each of the four mutating operations preserves the
record/book-level invariant. -/
theorem directory_invariant :
    (∀ book, Reachable book → BookOk book)
    ∧ (∀ (r : Record) (s : String) (r2 : Record),
        RecordOk r → Record.add_phone r s = .ok r2 → RecordOk r2)
    ∧ (∀ (r : Record) (oldPhone newPhone : String) (r2 : Record),
        RecordOk r → Record.change_phone r oldPhone newPhone = .ok r2 → RecordOk r2)
    ∧ (∀ (r : Record) (s : String) (r2 : Record),
        RecordOk r → Record.add_birthday r s = .ok r2 → RecordOk r2)
    ∧ (∀ (book : Book) (r : Record), BookOk book → RecordOk r → BookOk (addRecord book r)) := by
  refine ⟨?_, fun r s r2 h1 h2 => add_phone_keeps h1 h2,
    fun r o n r2 h1 h2 => change_phone_keeps h1 h2,
    fun r s r2 h1 h2 => add_birthday_keeps h1 h2,
    fun book r h1 h2 => BookOk_addRecord h1 h2⟩
  intro book hreach
  induction hreach with
  | base => exact ⟨fun kv hkv => absurd hkv (by simp), by simp⟩
  | step today line book2 hr ih => exact stepLine_pres ih

theorem directory_invariant_witness :
    BookOk (stepLine ⟨2024, 6, 10⟩ [] "add bob 1234567890").1 :=
  directory_invariant.1 _
    (Reachable.step ⟨2024, 6, 10⟩ "add bob 1234567890" [] Reachable.base)

end AddrBook
